import Mathlib

/-!
Shallow embedding of the Bitbucket manifest discovery provider
(`plugins/catalog-backend-module-bitbucket-manifest-discover`): the
version store (`versionStore.ts`), the per-repository classification
(`provider.ts` `processRepository`), the discovery pass (`discover`)
and the manifest fetch (`fetchManifest`).

Timestamps produced by the database (`db.fn.now()`) are modelled as a
single `now : Nat` supplied per pass; store failures (a rejected upsert
promise) are modelled with a `failKeys` parameter listing the repository
keys whose store write throws.
-/

namespace BBDiscover

/-- One row of the `bb_manifest_versions` table (see the migration and
`VersionRecord` in `versionStore.ts`): primary key `repo_key`, columns
`manifest_version`, `last_seen_at`, nullable `last_registered_at`. -/
structure VersionRecord where
  repoKey : String
  manifestVersion : String
  lastSeenAt : Nat
  lastRegisteredAt : Option Nat
  deriving Repr, DecidableEq

/-- The `bb_manifest_versions` table as a list of rows. The database's
primary-key constraint (at most one row per `repo_key`) is the predicate
`VersionStore.WF` below. -/
abbrev VersionStore := List VersionRecord

namespace VersionStore

/-- `VersionStore.get`: `select ... where repo_key = k` returning the
first (under WF, the only) matching row, or `null`. -/
def get (s : VersionStore) (k : String) : Option VersionRecord :=
  s.find? (fun r => r.repoKey == k)

/-- `VersionStore.upsertSeen`: `insert ... on conflict (repo_key) merge`.
A fresh row carries `last_registered_at = null`; on conflict only
`manifest_version` and `last_seen_at` are merged. -/
def upsertSeen (s : VersionStore) (k v : String) (now : Nat) : VersionStore :=
  if s.any (fun r => r.repoKey == k) then
    s.map (fun r =>
      if r.repoKey == k then
        { r with manifestVersion := v, lastSeenAt := now }
      else r)
  else
    s ++ [{ repoKey := k, manifestVersion := v, lastSeenAt := now,
            lastRegisteredAt := none }]

/-- `VersionStore.markRegistered`: `update ... set last_registered_at = now
where repo_key = k`. An update matching zero rows changes nothing and
raises no error. -/
def markRegistered (s : VersionStore) (k : String) (now : Nat) : VersionStore :=
  s.map (fun r =>
    if r.repoKey == k then { r with lastRegisteredAt := some now } else r)

/-- The table's primary-key invariant: at most one row per `repo_key`. -/
def WF (s : VersionStore) : Prop :=
  ∀ k, s.countP (fun r => r.repoKey == k) ≤ 1

end VersionStore

/-- One entry of the manifest's `spec.repositories` list. -/
structure BitbucketManifestRepo where
  id : String
  workspace : String
  repoSlug : String
  version : String
  deriving Repr, DecidableEq

/-- `repoKey = workspace + "/" + repoSlug` as computed in
`processRepository`. -/
def repoKeyOf (r : BitbucketManifestRepo) : String :=
  r.workspace ++ "/" ++ r.repoSlug

/-- The provider configuration fields `createLocationEntity` reads. -/
structure ProviderConfig where
  manifestUrl : String
  defaultBranch : String
  defaultCatalogInfoPath : String
  deriving Repr, DecidableEq

/-- The `LocationEntity` built by `createLocationEntity`: the metadata
name, the three annotations, and the `spec.target` URL (the fixed fields
`apiVersion`, `kind`, `spec.type` are constants in the source and are
omitted). -/
structure LocationEntity where
  name : String
  managedByLocation : String
  repoKeyAnn : String
  manifestVersionAnn : String
  target : String
  deriving Repr, DecidableEq

/-- `createLocationEntity`: a pure function of the config and the
descriptor. -/
def createLocationEntity (cfg : ProviderConfig) (r : BitbucketManifestRepo) :
    LocationEntity :=
  { name := "bitbucket-manifest-" ++ r.workspace ++ "-" ++ r.repoSlug
  , managedByLocation := "url:" ++ cfg.manifestUrl
  , repoKeyAnn := r.workspace ++ "/" ++ r.repoSlug
  , manifestVersionAnn := r.version
  , target := "https://bitbucket.org/" ++ r.workspace ++ "/" ++ r.repoSlug ++
      "/raw/" ++ cfg.defaultBranch ++ "/" ++ cfg.defaultCatalogInfoPath }

/-- The test `stored && stored.manifestVersion === repo.version` of
`processRepository`: exact string equality on the stored version. -/
def isUnchanged (s : VersionStore) (r : BitbucketManifestRepo) : Bool :=
  match s.get (repoKeyOf r) with
  | some stored => stored.manifestVersion == r.version
  | none => false

/-- `processRepository`: if the stored version equals the descriptor's,
return the location with `shouldRegister = false` and touch nothing;
otherwise run `upsertSeen` then `markRegistered` and return
`shouldRegister = true`. A key in `failKeys` makes the `upsertSeen` call
reject before anything is written, which propagates as an exception; with
`failKeys = []` this is the exact behaviour of the source. The refinement
`processRepositoryE` below additionally models a rejected
`markRegistered`, whose preceding `upsertSeen` has already committed. -/
def processRepository (cfg : ProviderConfig) (failKeys : List String)
    (s : VersionStore) (r : BitbucketManifestRepo) (now : Nat) :
    Except String (VersionStore × LocationEntity × Bool) :=
  let key := repoKeyOf r
  if isUnchanged s r then
    Except.ok (s, createLocationEntity cfg r, false)
  else if failKeys.contains key then
    Except.error ("store error: " ++ key)
  else
    Except.ok ((s.upsertSeen key r.version now).markRegistered key now,
      createLocationEntity cfg r, true)

/-- The `for (const repo of manifest.spec.repositories)` loop of
`discover`: thread the store, collect the locations whose result said
`shouldRegister`, and stop at the first thrown store error (the loop body
is not guarded by a per-iteration catch). Returns the final store, the
collected locations, and the error if one was thrown. -/
def processAll (cfg : ProviderConfig) (failKeys : List String) (now : Nat) :
    VersionStore → List BitbucketManifestRepo →
    VersionStore × List LocationEntity × Option String
  | s, [] => (s, [], none)
  | s, r :: rest =>
    match processRepository cfg failKeys s r now with
    | Except.error e => (s, [], some e)
    | Except.ok (s', loc, shouldRegister) =>
      let out := processAll cfg failKeys now s' rest
      (out.1, (if shouldRegister then [loc] else []) ++ out.2.1, out.2.2)

/-- The environment `fetchManifest` runs in: whether an integration
matches the URL, whether the HTTP response was ok, its status text, and
the parsed `spec.repositories` list (`none` when the parsed document has
no such field). -/
structure FetchEnv where
  integrationFound : Bool
  responseOk : Bool
  statusText : String
  parsedRepositories : Option (List BitbucketManifestRepo)
  deriving Repr, DecidableEq

/-- `fetchManifest`: throws when no integration matches, when the
response is not ok, or when the parsed manifest misses
`spec.repositories`; otherwise yields the descriptor list. -/
def fetchManifest (env : FetchEnv) : Except String (List BitbucketManifestRepo) :=
  if !env.integrationFound then
    Except.error "No Bitbucket Cloud integration configured for manifest URL"
  else if !env.responseOk then
    Except.error ("Failed to fetch manifest: " ++ env.statusText)
  else
    match env.parsedRepositories with
    | none => Except.error "Invalid manifest: missing spec.repositories"
    | some repos => Except.ok repos

/-- One entry of the `added` list handed to `applyMutation`. -/
structure DeltaEntry where
  entity : LocationEntity
  locationKey : String
  deriving Repr, DecidableEq

/-- The delta payload of `applyMutation`. -/
structure EntityDelta where
  added : List DeltaEntry
  removed : List DeltaEntry
  deriving Repr, DecidableEq

/-- `getProviderName()`. -/
def providerName : String := "bitbucket-manifest-discover"

/-- The tail of `discover` after the repository loop: when the loop threw,
the error is rethrown and `applyMutation` is never reached; otherwise
`applyMutation` is called with `{ added, removed: [] }` only if
`locationsToRegister.length > 0`. Returns the final store, the delta
handed to the sink (`none` when `applyMutation` was not called), and the
rethrown error, if any. -/
def applyDelta (out : VersionStore × List LocationEntity × Option String) :
    VersionStore × Option EntityDelta × Option String :=
  match out with
  | (s', _, some e) => (s', none, some e)
  | (s', locs, none) =>
    if locs.length > 0 then
      (s',
       some { added := locs.map (fun loc =>
                { entity := loc, locationKey := providerName })
            , removed := [] },
       none)
    else
      (s', none, none)

/-- `discover`: fetch the manifest (a throw aborts before any store
access), process every repository, and apply the delta as above. -/
def discover (cfg : ProviderConfig) (failKeys : List String) (env : FetchEnv)
    (s : VersionStore) (now : Nat) :
    VersionStore × Option EntityDelta × Option String :=
  match fetchManifest env with
  | Except.error e => (s, none, some e)
  | Except.ok repos => applyDelta (processAll cfg failKeys now s repos)

/-- `processRepository` with the store failure injection refined to the two
separate awaits of the source (there is no transaction around them): a key
in `failUpsert` makes `versionStore.upsertSeen` reject before writing
anything, while a key in `failReg` makes `versionStore.markRegistered`
reject after the upsert has already committed. Returns the store as
mutated so far together with the outcome, so the committed state is
visible even when the call throws. -/
def processRepositoryE (cfg : ProviderConfig) (failUpsert failReg : List String)
    (s : VersionStore) (r : BitbucketManifestRepo) (now : Nat) :
    VersionStore × Except String (LocationEntity × Bool) :=
  let key := repoKeyOf r
  if isUnchanged s r then
    (s, Except.ok (createLocationEntity cfg r, false))
  else if failUpsert.contains key then
    (s, Except.error ("store error: " ++ key))
  else
    let s1 := s.upsertSeen key r.version now
    if failReg.contains key then
      (s1, Except.error ("store error: " ++ key))
    else
      (s1.markRegistered key now, Except.ok (createLocationEntity cfg r, true))

/-- The repository loop of `discover` over `processRepositoryE`: the first
thrown store error ends the loop, keeping whatever that iteration had
already committed. -/
def processAllE (cfg : ProviderConfig) (failUpsert failReg : List String)
    (now : Nat) :
    VersionStore → List BitbucketManifestRepo →
    VersionStore × List LocationEntity × Option String
  | s, [] => (s, [], none)
  | s, r :: rest =>
    match processRepositoryE cfg failUpsert failReg s r now with
    | (s', Except.error e) => (s', [], some e)
    | (s', Except.ok (loc, shouldRegister)) =>
      let out := processAllE cfg failUpsert failReg now s' rest
      (out.1, (if shouldRegister then [loc] else []) ++ out.2.1, out.2.2)

/-- `discover` over the refined failure model. -/
def discoverE (cfg : ProviderConfig) (failUpsert failReg : List String)
    (env : FetchEnv) (s : VersionStore) (now : Nat) :
    VersionStore × Option EntityDelta × Option String :=
  match fetchManifest env with
  | Except.error e => (s, none, some e)
  | Except.ok repos => applyDelta (processAllE cfg failUpsert failReg now s repos)

/-- The stored version string at a key, if any. -/
def versionAt (s : VersionStore) (k : String) : Option String :=
  (s.get k).map VersionRecord.manifestVersion

/-- The store write of the New/Changed branch of `processRepository`:
`upsertSeen` followed by `markRegistered` on the descriptor's key. -/
def regStore (s : VersionStore) (r : BitbucketManifestRepo) (now : Nat) :
    VersionStore :=
  (s.upsertSeen (repoKeyOf r) r.version now).markRegistered (repoKeyOf r) now

/-- The descriptors a failure-free pass classifies as New or Changed
(those whose location is pushed to the delta), mirroring the store
threading of `processAll`. -/
def emittedRepos (now : Nat) :
    VersionStore → List BitbucketManifestRepo → List BitbucketManifestRepo
  | _, [] => []
  | s, r :: rest =>
    if isUnchanged s r then
      emittedRepos now s rest
    else
      r :: emittedRepos now (regStore s r now) rest

/-- A concrete configuration for the closed instances below. -/
def exampleCfg : ProviderConfig :=
  { manifestUrl := "https://bitbucket.org/acme/catalog/raw/main/manifest.yaml"
  , defaultBranch := "main"
  , defaultCatalogInfoPath := "catalog-info.yaml" }

/-- Descriptor `acme/svc-a` at version `1.0.0`. -/
def repoA : BitbucketManifestRepo :=
  { id := "1", workspace := "acme", repoSlug := "svc-a", version := "1.0.0" }

/-- Descriptor `acme/svc-a` at version `2.0.0` (same repoKey as `repoA`,
different version). -/
def repoAv2 : BitbucketManifestRepo :=
  { id := "1", workspace := "acme", repoSlug := "svc-a", version := "2.0.0" }

/-- Descriptor `acme/svc-b` at version `2.0.0`. -/
def repoB : BitbucketManifestRepo :=
  { id := "2", workspace := "acme", repoSlug := "svc-b", version := "2.0.0" }

/-! ## Store lemmas -/

namespace VersionStore

theorem get_some_key {s : VersionStore} {k : String} {rec0 : VersionRecord}
    (h : s.get k = some rec0) : rec0.repoKey = k := by
  have := List.find?_some h
  simpa [beq_iff_eq] using this

theorem find?_map_of_key (f : VersionRecord → VersionRecord)
    (hf : ∀ r, (f r).repoKey = r.repoKey) (s : List VersionRecord) (k : String) :
    (s.map f).find? (fun r => r.repoKey == k) =
      (s.find? (fun r => r.repoKey == k)).map f := by
  rw [List.find?_map]
  have hp : ((fun r => r.repoKey == k) ∘ f) = (fun r => r.repoKey == k) := by
    funext r
    simp [Function.comp, hf r]
  rw [hp]

theorem markRegistered_get_self {s : VersionStore} {k : String} (now : Nat)
    {rec0 : VersionRecord} (h : s.get k = some rec0) :
    (s.markRegistered k now).get k =
      some { rec0 with lastRegisteredAt := some now } := by
  have hkey : rec0.repoKey = k := get_some_key h
  unfold markRegistered get
  rw [find?_map_of_key _ (fun r => by by_cases hr : r.repoKey == k <;> simp [hr])]
  unfold get at h
  rw [h, Option.map_some']
  rw [if_pos (by simp [hkey])]

theorem markRegistered_of_get_none {s : VersionStore} {k : String} (now : Nat)
    (h : s.get k = none) : s.markRegistered k now = s := by
  unfold get at h
  rw [List.find?_eq_none] at h
  unfold markRegistered
  have hid : ∀ r ∈ s,
      (if r.repoKey == k then { r with lastRegisteredAt := some now } else r) = r := by
    intro r hr
    simp [h r hr]
  rw [List.map_congr_left hid]
  simp

theorem markRegistered_get_other (s : VersionStore) {k k' : String} (now : Nat)
    (hk : k' ≠ k) : (s.markRegistered k now).get k' = s.get k' := by
  unfold markRegistered get
  rw [find?_map_of_key _ (fun r => by by_cases hr : r.repoKey == k <;> simp [hr])]
  cases hfind : s.find? (fun r => r.repoKey == k') with
  | none => simp
  | some rec0 =>
    have hkey : rec0.repoKey = k' := by
      simpa [beq_iff_eq] using List.find?_some hfind
    rw [Option.map_some']
    rw [if_neg (by simp [hkey, hk])]

theorem upsertSeen_of_get_none {s : VersionStore} {k : String} (v : String)
    (now : Nat) (h : s.get k = none) :
    s.upsertSeen k v now =
      s ++ [{ repoKey := k, manifestVersion := v, lastSeenAt := now,
              lastRegisteredAt := none }] := by
  unfold get at h
  rw [List.find?_eq_none] at h
  unfold upsertSeen
  rw [if_neg (by rw [Bool.not_eq_true, List.any_eq_false]; exact h)]

theorem upsertSeen_get_self_none {s : VersionStore} {k : String} (v : String)
    (now : Nat) (h : s.get k = none) :
    (s.upsertSeen k v now).get k =
      some { repoKey := k, manifestVersion := v, lastSeenAt := now,
             lastRegisteredAt := none } := by
  rw [upsertSeen_of_get_none v now h]
  unfold get at h ⊢
  rw [List.find?_append, h]
  simp

theorem upsertSeen_get_self_some {s : VersionStore} {k : String} (v : String)
    (now : Nat) {rec0 : VersionRecord} (h : s.get k = some rec0) :
    (s.upsertSeen k v now).get k =
      some { rec0 with manifestVersion := v, lastSeenAt := now } := by
  have hkey : rec0.repoKey = k := get_some_key h
  have hmem : rec0 ∈ s := List.mem_of_find?_eq_some h
  have hany : s.any (fun r => r.repoKey == k) = true := by
    rw [List.any_eq_true]
    exact ⟨rec0, hmem, by simp [hkey]⟩
  unfold upsertSeen get
  rw [if_pos hany]
  rw [find?_map_of_key _ (fun r => by by_cases hr : r.repoKey == k <;> simp [hr])]
  unfold get at h
  rw [h, Option.map_some']
  rw [if_pos (by simp [hkey])]

theorem upsertSeen_get_other (s : VersionStore) {k k' : String} (v : String)
    (now : Nat) (hk : k' ≠ k) :
    (s.upsertSeen k v now).get k' = s.get k' := by
  unfold upsertSeen
  by_cases hany : s.any (fun r => r.repoKey == k)
  · rw [if_pos hany]
    unfold get
    rw [find?_map_of_key
      (fun r => if r.repoKey == k then
        { r with manifestVersion := v, lastSeenAt := now } else r)
      (fun r => by by_cases hr : r.repoKey == k <;> simp [hr])]
    cases hfind : s.find? (fun r => r.repoKey == k') with
    | none => simp
    | some rec0 =>
      have hkey : rec0.repoKey = k' := by
        simpa [beq_iff_eq] using List.find?_some hfind
      rw [Option.map_some']
      rw [if_neg (by simp [hkey, hk])]
  · rw [if_neg hany]
    unfold get
    rw [List.find?_append]
    have hone : List.find? (fun r => r.repoKey == k')
        [({ repoKey := k, manifestVersion := v, lastSeenAt := now,
            lastRegisteredAt := none } : VersionRecord)] = none := by
      simp [Ne.symm hk]
    rw [hone]
    simp

/-- After `upsertSeen` then `markRegistered` on the same key, the row at
that key is exactly `⟨k, v, now, some now⟩`, whatever was there before. -/
theorem reg_get_self (s : VersionStore) (k v : String) (now : Nat) :
    ((s.upsertSeen k v now).markRegistered k now).get k =
      some { repoKey := k, manifestVersion := v, lastSeenAt := now,
             lastRegisteredAt := some now } := by
  cases hget : s.get k with
  | none =>
    have h1 := upsertSeen_get_self_none v now hget
    have h2 := markRegistered_get_self now h1
    simpa using h2
  | some rec0 =>
    have hkey : rec0.repoKey = k := get_some_key hget
    have h1 := upsertSeen_get_self_some v now hget
    have h2 := markRegistered_get_self now h1
    simpa [hkey] using h2

theorem reg_get_other (s : VersionStore) {k k' : String} (v : String)
    (now : Nat) (hk : k' ≠ k) :
    ((s.upsertSeen k v now).markRegistered k now).get k' = s.get k' := by
  rw [markRegistered_get_other _ now hk, upsertSeen_get_other s v now hk]

theorem countP_map_of_key (f : VersionRecord → VersionRecord)
    (hf : ∀ r, (f r).repoKey = r.repoKey) (s : List VersionRecord) (k : String) :
    (s.map f).countP (fun r => r.repoKey == k) =
      s.countP (fun r => r.repoKey == k) := by
  rw [List.countP_map]
  have hp : ((fun r => r.repoKey == k) ∘ f) = (fun r => r.repoKey == k) := by
    funext r
    simp [Function.comp, hf r]
  rw [hp]

theorem WF_markRegistered {s : VersionStore} (k : String) (now : Nat)
    (h : WF s) : WF (s.markRegistered k now) := by
  intro k'
  unfold markRegistered
  rw [countP_map_of_key _ (fun r => by by_cases hr : r.repoKey == k <;> simp [hr])]
  exact h k'

theorem WF_upsertSeen {s : VersionStore} (k v : String) (now : Nat)
    (h : WF s) : WF (s.upsertSeen k v now) := by
  intro k'
  unfold upsertSeen
  by_cases hany : s.any (fun r => r.repoKey == k)
  · rw [if_pos hany]
    rw [countP_map_of_key
      (fun r => if r.repoKey == k then
        { r with manifestVersion := v, lastSeenAt := now } else r)
      (fun r => by by_cases hr : r.repoKey == k <;> simp [hr])]
    exact h k'
  · rw [if_neg hany]
    rw [Bool.not_eq_true] at hany
    rw [List.countP_append]
    by_cases hkk : k = k'
    · subst hkk
      have hzero : s.countP (fun r => r.repoKey == k) = 0 := by
        rw [List.countP_eq_zero]
        intro r hr
        have := (List.any_eq_false.mp hany) r hr
        simpa using this
      simp [hzero, List.countP_cons]
    · have hone : List.countP (fun r => r.repoKey == k')
          [({ repoKey := k, manifestVersion := v, lastSeenAt := now,
              lastRegisteredAt := none } : VersionRecord)] = 0 := by
        simp [List.countP_cons, hkk]
      rw [hone]
      simpa using h k'

end VersionStore

/-! ## Pass lemmas -/

theorem regStore_get_self (s : VersionStore) (r : BitbucketManifestRepo)
    (now : Nat) :
    (regStore s r now).get (repoKeyOf r) =
      some { repoKey := repoKeyOf r, manifestVersion := r.version,
             lastSeenAt := now, lastRegisteredAt := some now } :=
  VersionStore.reg_get_self s (repoKeyOf r) r.version now

theorem regStore_get_other (s : VersionStore) (r : BitbucketManifestRepo)
    (now : Nat) {k : String} (hk : k ≠ repoKeyOf r) :
    (regStore s r now).get k = s.get k :=
  VersionStore.reg_get_other s r.version now hk

theorem processRepository_unchanged (cfg : ProviderConfig) (fk : List String)
    {s : VersionStore} {r : BitbucketManifestRepo} (now : Nat)
    (h : isUnchanged s r = true) :
    processRepository cfg fk s r now =
      Except.ok (s, createLocationEntity cfg r, false) := by
  simp [processRepository, h]

theorem processRepository_changed (cfg : ProviderConfig) (fk : List String)
    {s : VersionStore} {r : BitbucketManifestRepo} (now : Nat)
    (h : isUnchanged s r = false) (hfk : fk.contains (repoKeyOf r) = false) :
    processRepository cfg fk s r now =
      Except.ok (regStore s r now, createLocationEntity cfg r, true) := by
  have hfk' : repoKeyOf r ∉ fk := by simpa using hfk
  simp [processRepository, regStore, h, hfk']

theorem processRepository_throw (cfg : ProviderConfig) (fk : List String)
    {s : VersionStore} {r : BitbucketManifestRepo} (now : Nat)
    (h : isUnchanged s r = false) (hfk : fk.contains (repoKeyOf r) = true) :
    processRepository cfg fk s r now =
      Except.error ("store error: " ++ repoKeyOf r) := by
  have hfk' : repoKeyOf r ∈ fk := by simpa using hfk
  simp [processRepository, h, hfk']

theorem processAll_cons_unchanged (cfg : ProviderConfig) (fk : List String)
    (now : Nat) {s : VersionStore} {r : BitbucketManifestRepo}
    (rest : List BitbucketManifestRepo) (h : isUnchanged s r = true) :
    processAll cfg fk now s (r :: rest) = processAll cfg fk now s rest := by
  simp [processAll, processRepository_unchanged cfg fk now h]

theorem processAll_cons_changed (cfg : ProviderConfig) (fk : List String)
    (now : Nat) {s : VersionStore} {r : BitbucketManifestRepo}
    (rest : List BitbucketManifestRepo) (h : isUnchanged s r = false)
    (hfk : fk.contains (repoKeyOf r) = false) :
    processAll cfg fk now s (r :: rest) =
      ((processAll cfg fk now (regStore s r now) rest).1,
       createLocationEntity cfg r ::
         (processAll cfg fk now (regStore s r now) rest).2.1,
       (processAll cfg fk now (regStore s r now) rest).2.2) := by
  simp [processAll, processRepository_changed cfg fk now h hfk]

theorem processAll_cons_throw (cfg : ProviderConfig) (fk : List String)
    (now : Nat) {s : VersionStore} {r : BitbucketManifestRepo}
    (rest : List BitbucketManifestRepo) (h : isUnchanged s r = false)
    (hfk : fk.contains (repoKeyOf r) = true) :
    processAll cfg fk now s (r :: rest) =
      (s, [], some ("store error: " ++ repoKeyOf r)) := by
  simp [processAll, processRepository_throw cfg fk now h hfk]

theorem emittedRepos_cons_unchanged (now : Nat) {s : VersionStore}
    {r : BitbucketManifestRepo} (rest : List BitbucketManifestRepo)
    (h : isUnchanged s r = true) :
    emittedRepos now s (r :: rest) = emittedRepos now s rest := by
  simp [emittedRepos, h]

theorem emittedRepos_cons_changed (now : Nat) {s : VersionStore}
    {r : BitbucketManifestRepo} (rest : List BitbucketManifestRepo)
    (h : isUnchanged s r = false) :
    emittedRepos now s (r :: rest) =
      r :: emittedRepos now (regStore s r now) rest := by
  simp [emittedRepos, h]

theorem processAll_nofail (cfg : ProviderConfig) (now : Nat)
    (repos : List BitbucketManifestRepo) :
    ∀ s : VersionStore, (processAll cfg [] now s repos).2.2 = none := by
  induction repos with
  | nil => intro s; rfl
  | cons r rest ih =>
    intro s
    cases h : isUnchanged s r with
    | true =>
      rw [processAll_cons_unchanged cfg [] now rest h]
      exact ih s
    | false =>
      rw [processAll_cons_changed cfg [] now rest h rfl]
      exact ih (regStore s r now)

theorem processAll_get_frame (cfg : ProviderConfig) (fk : List String)
    (now : Nat) (repos : List BitbucketManifestRepo) :
    ∀ (s : VersionStore) (k : String), k ∉ repos.map repoKeyOf →
      (processAll cfg fk now s repos).1.get k = s.get k := by
  induction repos with
  | nil => intro s k _; rfl
  | cons r rest ih =>
    intro s k hk
    rw [List.map_cons, List.mem_cons, not_or] at hk
    obtain ⟨hkr, hkrest⟩ := hk
    cases h : isUnchanged s r with
    | true =>
      rw [processAll_cons_unchanged cfg fk now rest h]
      exact ih s k hkrest
    | false =>
      cases hfk : fk.contains (repoKeyOf r) with
      | true =>
        rw [processAll_cons_throw cfg fk now rest h hfk]
      | false =>
        rw [processAll_cons_changed cfg fk now rest h hfk]
        show (processAll cfg fk now (regStore s r now) rest).1.get k = s.get k
        rw [ih (regStore s r now) k hkrest]
        exact regStore_get_other s r now hkr

theorem processAll_get_frame_emitted (cfg : ProviderConfig) (now : Nat)
    (repos : List BitbucketManifestRepo) :
    ∀ (s : VersionStore) (k : String),
      k ∉ (emittedRepos now s repos).map repoKeyOf →
      (processAll cfg [] now s repos).1.get k = s.get k := by
  induction repos with
  | nil => intro s k _; rfl
  | cons r rest ih =>
    intro s k hk
    cases h : isUnchanged s r with
    | true =>
      rw [emittedRepos_cons_unchanged now rest h] at hk
      rw [processAll_cons_unchanged cfg [] now rest h]
      exact ih s k hk
    | false =>
      rw [emittedRepos_cons_changed now rest h, List.map_cons,
        List.mem_cons, not_or] at hk
      obtain ⟨hkr, hkrest⟩ := hk
      rw [processAll_cons_changed cfg [] now rest h rfl]
      show (processAll cfg [] now (regStore s r now) rest).1.get k = s.get k
      rw [ih (regStore s r now) k hkrest]
      exact regStore_get_other s r now hkr

theorem processAll_locations (cfg : ProviderConfig) (now : Nat)
    (repos : List BitbucketManifestRepo) :
    ∀ s : VersionStore, (processAll cfg [] now s repos).2.1 =
      (emittedRepos now s repos).map (createLocationEntity cfg) := by
  induction repos with
  | nil => intro s; rfl
  | cons r rest ih =>
    intro s
    cases h : isUnchanged s r with
    | true =>
      rw [processAll_cons_unchanged cfg [] now rest h,
        emittedRepos_cons_unchanged now rest h]
      exact ih s
    | false =>
      rw [processAll_cons_changed cfg [] now rest h rfl,
        emittedRepos_cons_changed now rest h, List.map_cons]
      show createLocationEntity cfg r ::
          (processAll cfg [] now (regStore s r now) rest).2.1 =
        createLocationEntity cfg r ::
          (emittedRepos now (regStore s r now) rest).map (createLocationEntity cfg)
      rw [ih (regStore s r now)]

theorem processAll_get_emitted (cfg : ProviderConfig) (now : Nat)
    (repos : List BitbucketManifestRepo) :
    ∀ (s : VersionStore) (k : String),
      k ∈ (emittedRepos now s repos).map repoKeyOf →
      ∃ r0 ∈ repos, repoKeyOf r0 = k ∧
        (processAll cfg [] now s repos).1.get k =
          some { repoKey := k, manifestVersion := r0.version,
                 lastSeenAt := now, lastRegisteredAt := some now } := by
  induction repos with
  | nil =>
    intro s k hk
    simp [emittedRepos] at hk
  | cons r rest ih =>
    intro s k hk
    cases h : isUnchanged s r with
    | true =>
      rw [emittedRepos_cons_unchanged now rest h] at hk
      rw [processAll_cons_unchanged cfg [] now rest h]
      obtain ⟨r0, hr0, hkey, hget⟩ := ih s k hk
      exact ⟨r0, List.mem_cons_of_mem r hr0, hkey, hget⟩
    | false =>
      rw [emittedRepos_cons_changed now rest h, List.map_cons,
        List.mem_cons] at hk
      rw [processAll_cons_changed cfg [] now rest h rfl]
      by_cases hmem : k ∈ (emittedRepos now (regStore s r now) rest).map repoKeyOf
      · obtain ⟨r0, hr0, hkey, hget⟩ := ih (regStore s r now) k hmem
        exact ⟨r0, List.mem_cons_of_mem r hr0, hkey, hget⟩
      · have hkr : k = repoKeyOf r := by
          rcases hk with h1 | h2
          · exact h1
          · exact absurd h2 hmem
        refine ⟨r, List.mem_cons_self r rest, hkr.symm, ?_⟩
        show (processAll cfg [] now (regStore s r now) rest).1.get k =
          some { repoKey := k, manifestVersion := r.version,
                 lastSeenAt := now, lastRegisteredAt := some now }
        rw [processAll_get_frame_emitted cfg now rest (regStore s r now) k hmem]
        rw [hkr]
        exact regStore_get_self s r now

theorem isUnchanged_iff (s : VersionStore) (r : BitbucketManifestRepo) :
    isUnchanged s r = true ↔ versionAt s (repoKeyOf r) = some r.version := by
  unfold isUnchanged versionAt
  cases s.get (repoKeyOf r) with
  | none => simp
  | some rec0 => simp [beq_iff_eq]

theorem versionAt_regStore_self (s : VersionStore) (r : BitbucketManifestRepo)
    (now : Nat) :
    versionAt (regStore s r now) (repoKeyOf r) = some r.version := by
  unfold versionAt
  rw [regStore_get_self]
  rfl

theorem versionAt_regStore_other (s : VersionStore) (r : BitbucketManifestRepo)
    (now : Nat) {k : String} (hk : k ≠ repoKeyOf r) :
    versionAt (regStore s r now) k = versionAt s k := by
  unfold versionAt
  rw [regStore_get_other s r now hk]

theorem pass_version_stable (cfg : ProviderConfig) (now : Nat)
    (repos : List BitbucketManifestRepo) :
    ∀ (s : VersionStore) (k v : String),
      versionAt s k = some v →
      (∀ r ∈ repos, repoKeyOf r = k → r.version = v) →
      versionAt (processAll cfg [] now s repos).1 k = some v := by
  induction repos with
  | nil => intro s k v hv _; exact hv
  | cons r rest ih =>
    intro s k v hv hcons
    cases h : isUnchanged s r with
    | true =>
      rw [processAll_cons_unchanged cfg [] now rest h]
      exact ih s k v hv (fun r' hr' => hcons r' (List.mem_cons_of_mem r hr'))
    | false =>
      rw [processAll_cons_changed cfg [] now rest h rfl]
      show versionAt (processAll cfg [] now (regStore s r now) rest).1 k = some v
      refine ih (regStore s r now) k v ?_
        (fun r' hr' => hcons r' (List.mem_cons_of_mem r hr'))
      by_cases hkr : repoKeyOf r = k
      · have hvr : r.version = v := hcons r (List.mem_cons_self r rest) hkr
        rw [← hkr, versionAt_regStore_self, hvr]
      · rw [versionAt_regStore_other s r now (fun hh => hkr hh.symm)]
        exact hv

theorem pass_establishes (cfg : ProviderConfig) (now : Nat)
    (repos : List BitbucketManifestRepo) :
    ∀ s : VersionStore,
      (∀ r1 ∈ repos, ∀ r2 ∈ repos, repoKeyOf r1 = repoKeyOf r2 →
        r1.version = r2.version) →
      ∀ r ∈ repos,
        versionAt (processAll cfg [] now s repos).1 (repoKeyOf r) =
          some r.version := by
  induction repos with
  | nil => intro s _ r hr; exact absurd hr (List.not_mem_nil r)
  | cons r rest ih =>
    intro s hcons rq hrq
    have hconsrest : ∀ r1 ∈ rest, ∀ r2 ∈ rest,
        repoKeyOf r1 = repoKeyOf r2 → r1.version = r2.version :=
      fun r1 h1 r2 h2 =>
        hcons r1 (List.mem_cons_of_mem r h1) r2 (List.mem_cons_of_mem r h2)
    cases h : isUnchanged s r with
    | true =>
      rw [processAll_cons_unchanged cfg [] now rest h]
      rcases List.mem_cons.mp hrq with rfl | hmem
      · exact pass_version_stable cfg now rest s _ _
          ((isUnchanged_iff s rq).mp h)
          (fun r' hr' hk => hcons r' (List.mem_cons_of_mem rq hr') rq
            (List.mem_cons_self rq rest) hk)
      · exact ih s hconsrest rq hmem
    | false =>
      rw [processAll_cons_changed cfg [] now rest h rfl]
      show versionAt (processAll cfg [] now (regStore s r now) rest).1
        (repoKeyOf rq) = some rq.version
      rcases List.mem_cons.mp hrq with rfl | hmem
      · exact pass_version_stable cfg now rest (regStore s rq now) _ _
          (versionAt_regStore_self s rq now)
          (fun r' hr' hk => hcons r' (List.mem_cons_of_mem rq hr') rq
            (List.mem_cons_self rq rest) hk)
      · exact ih (regStore s r now) hconsrest rq hmem

theorem pass_all_unchanged (cfg : ProviderConfig) (fk : List String) (now : Nat)
    (repos : List BitbucketManifestRepo) :
    ∀ s : VersionStore, (∀ r ∈ repos, isUnchanged s r = true) →
      processAll cfg fk now s repos = (s, [], none) := by
  induction repos with
  | nil => intro s _; rfl
  | cons r rest ih =>
    intro s hall
    rw [processAll_cons_unchanged cfg fk now rest
      (hall r (List.mem_cons_self r rest))]
    exact ih s (fun r' hr' => hall r' (List.mem_cons_of_mem r hr'))

/-! ## Refined failure-model lemmas -/

theorem processAllE_cons_unchanged (cfg : ProviderConfig)
    (fu fr : List String) (now : Nat) {s : VersionStore}
    {r : BitbucketManifestRepo} (rest : List BitbucketManifestRepo)
    (h : isUnchanged s r = true) :
    processAllE cfg fu fr now s (r :: rest) =
      processAllE cfg fu fr now s rest := by
  simp [processAllE, processRepositoryE, h]

theorem processAllE_cons_changed (cfg : ProviderConfig)
    (fu fr : List String) (now : Nat) {s : VersionStore}
    {r : BitbucketManifestRepo} (rest : List BitbucketManifestRepo)
    (h : isUnchanged s r = false) (hfu : fu.contains (repoKeyOf r) = false)
    (hfr : fr.contains (repoKeyOf r) = false) :
    processAllE cfg fu fr now s (r :: rest) =
      ((processAllE cfg fu fr now (regStore s r now) rest).1,
       createLocationEntity cfg r ::
         (processAllE cfg fu fr now (regStore s r now) rest).2.1,
       (processAllE cfg fu fr now (regStore s r now) rest).2.2) := by
  have hfu' : repoKeyOf r ∉ fu := by simpa using hfu
  have hfr' : repoKeyOf r ∉ fr := by simpa using hfr
  simp [processAllE, processRepositoryE, regStore, h, hfu', hfr']

theorem processAllE_cons_upsert_throw (cfg : ProviderConfig)
    (fu fr : List String) (now : Nat) {s : VersionStore}
    {r : BitbucketManifestRepo} (rest : List BitbucketManifestRepo)
    (h : isUnchanged s r = false) (hfu : fu.contains (repoKeyOf r) = true) :
    processAllE cfg fu fr now s (r :: rest) =
      (s, [], some ("store error: " ++ repoKeyOf r)) := by
  have hfu' : repoKeyOf r ∈ fu := by simpa using hfu
  simp [processAllE, processRepositoryE, h, hfu']

theorem processAllE_cons_reg_throw (cfg : ProviderConfig)
    (fu fr : List String) (now : Nat) {s : VersionStore}
    {r : BitbucketManifestRepo} (rest : List BitbucketManifestRepo)
    (h : isUnchanged s r = false) (hfu : fu.contains (repoKeyOf r) = false)
    (hfr : fr.contains (repoKeyOf r) = true) :
    processAllE cfg fu fr now s (r :: rest) =
      (s.upsertSeen (repoKeyOf r) r.version now, [],
        some ("store error: " ++ repoKeyOf r)) := by
  have hfu' : repoKeyOf r ∉ fu := by simpa using hfu
  have hfr' : repoKeyOf r ∈ fr := by simpa using hfr
  simp [processAllE, processRepositoryE, h, hfu', hfr']

/-- With no injected `markRegistered` failures, the refined model is the
plain pass: `processAll` is the `failReg = []` special case of
`processAllE`. -/
theorem processAllE_no_reg_failures (cfg : ProviderConfig) (fu : List String)
    (now : Nat) (repos : List BitbucketManifestRepo) :
    ∀ s : VersionStore,
      processAllE cfg fu [] now s repos = processAll cfg fu now s repos := by
  induction repos with
  | nil => intro s; rfl
  | cons r rest ih =>
    intro s
    cases h : isUnchanged s r with
    | true =>
      rw [processAllE_cons_unchanged cfg fu [] now rest h,
        processAll_cons_unchanged cfg fu now rest h]
      exact ih s
    | false =>
      cases hfu : fu.contains (repoKeyOf r) with
      | true =>
        rw [processAllE_cons_upsert_throw cfg fu [] now rest h hfu,
          processAll_cons_throw cfg fu now rest h hfu]
      | false =>
        rw [processAllE_cons_changed cfg fu [] now rest h hfu rfl,
          processAll_cons_changed cfg fu now rest h hfu,
          ih (regStore s r now)]

/-! ## Discover lemmas -/

theorem discover_fetch_error (cfg : ProviderConfig) (fk : List String)
    (env : FetchEnv) (s : VersionStore) (now : Nat) (e : String)
    (h : fetchManifest env = Except.error e) :
    discover cfg fk env s now = (s, none, some e) := by
  unfold discover
  rw [h]

theorem discover_ok (cfg : ProviderConfig) (fk : List String) (env : FetchEnv)
    (s : VersionStore) (now : Nat) (repos : List BitbucketManifestRepo)
    (hf : fetchManifest env = Except.ok repos) :
    discover cfg fk env s now = applyDelta (processAll cfg fk now s repos) := by
  unfold discover
  rw [hf]

theorem applyDelta_fst (out : VersionStore × List LocationEntity × Option String) :
    (applyDelta out).1 = out.1 := by
  rcases out with ⟨s', locs, err⟩
  cases err with
  | some e => rfl
  | none =>
    simp only [applyDelta]
    by_cases hlen : locs.length > 0
    · rw [if_pos hlen]
    · rw [if_neg hlen]

theorem applyDelta_err (out : VersionStore × List LocationEntity × Option String)
    (e : String) (he : out.2.2 = some e) :
    applyDelta out = (out.1, none, some e) := by
  rcases out with ⟨s', locs, err⟩
  cases err with
  | some e' =>
    have he' : e' = e := by simpa using he
    subst he'
    rfl
  | none => simp at he

theorem applyDelta_some (out : VersionStore × List LocationEntity × Option String)
    (m : EntityDelta) (hm : (applyDelta out).2.1 = some m) :
    m.removed = [] ∧
    m.added = out.2.1.map (fun loc =>
      { entity := loc, locationKey := providerName }) ∧
    out.2.2 = none ∧ 0 < out.2.1.length := by
  rcases out with ⟨s', locs, err⟩
  cases err with
  | some e => simp [applyDelta] at hm
  | none =>
    simp only [applyDelta] at hm
    by_cases hlen : locs.length > 0
    · rw [if_pos hlen] at hm
      have hmm := Option.some.inj hm
      subst hmm
      exact ⟨rfl, rfl, rfl, hlen⟩
    · rw [if_neg hlen] at hm
      simp at hm

/-! ## Claim theorems -/

/-- C1 (amended): for every descriptor list in which descriptors sharing a
repoKey carry equal versions (in particular any list with pairwise distinct
repoKeys), after a first failure-free pass every descriptor is classified
Unchanged on the second pass: the second pass leaves the store untouched,
collects no locations, and a second `discover` over the same manifest calls
no `applyMutation` at all. -/
theorem reconcile_idempotent (cfg : ProviderConfig) (s : VersionStore)
    (repos : List BitbucketManifestRepo) (now now2 : Nat) (st : String)
    (hcons : ∀ r1 ∈ repos, ∀ r2 ∈ repos,
      repoKeyOf r1 = repoKeyOf r2 → r1.version = r2.version) :
    (∀ r ∈ repos, isUnchanged (processAll cfg [] now s repos).1 r = true)
    ∧ processAll cfg [] now2 (processAll cfg [] now s repos).1 repos =
        ((processAll cfg [] now s repos).1, [], none)
    ∧ discover cfg []
        { integrationFound := true, responseOk := true, statusText := st,
          parsedRepositories := some repos }
        (processAll cfg [] now s repos).1 now2 =
        ((processAll cfg [] now s repos).1, none, none) := by
  have hall : ∀ r ∈ repos,
      isUnchanged (processAll cfg [] now s repos).1 r = true := by
    intro r hr
    rw [isUnchanged_iff]
    exact pass_establishes cfg now repos s hcons r hr
  refine ⟨hall, pass_all_unchanged cfg [] now2 repos _ hall, ?_⟩
  rw [discover_ok cfg []
    { integrationFound := true, responseOk := true, statusText := st,
      parsedRepositories := some repos }
    (processAll cfg [] now s repos).1 now2 repos rfl]
  rw [pass_all_unchanged cfg [] now2 repos _ hall]
  rfl

/-- C1 counterexample: the claim as stated quantifies over every descriptor
list; for the list `[repoA, repoAv2]` (one repoKey, two different versions)
the second run still emits two LocationPointers, not zero. -/
theorem second_pass_emits_cx :
    (processAll exampleCfg [] 1
      (processAll exampleCfg [] 0 [] [repoA, repoAv2]).1
      [repoA, repoAv2]).2.1.length = 2 := by decide

/-- C1 witness: the amended theorem applied to the concrete two-repository
manifest `[repoA, repoB]` (distinct repoKeys) starting from the empty
store. -/
theorem reconcile_idempotent_witness :
    (∀ r ∈ [repoA, repoB],
      isUnchanged (processAll exampleCfg [] 0 [] [repoA, repoB]).1 r = true)
    ∧ processAll exampleCfg [] 1 (processAll exampleCfg [] 0 [] [repoA, repoB]).1
        [repoA, repoB] =
        ((processAll exampleCfg [] 0 [] [repoA, repoB]).1, [], none)
    ∧ discover exampleCfg []
        { integrationFound := true, responseOk := true, statusText := "OK",
          parsedRepositories := some [repoA, repoB] }
        (processAll exampleCfg [] 0 [] [repoA, repoB]).1 1 =
        ((processAll exampleCfg [] 0 [] [repoA, repoB]).1, none, none) :=
  reconcile_idempotent exampleCfg [] [repoA, repoB] 0 1 "OK" (by decide)

/-- C2: classification uses exact string equality on the version — a
descriptor is Unchanged iff a prior record exists for its repoKey with a
string-equal `manifestVersion`; `processRepository` returns
`shouldRegister = false` with no store mutation exactly in that case, and
otherwise (New or Changed, including whitespace differences or downgrades)
it writes the store and returns `shouldRegister = true`, which is what
places the LocationPointer in the delta. -/
theorem classification_exact_string_equality (cfg : ProviderConfig)
    (s : VersionStore) (r : BitbucketManifestRepo) (now : Nat) :
    (isUnchanged s r = true ↔
      ∃ rec0, s.get (repoKeyOf r) = some rec0 ∧
        rec0.manifestVersion = r.version)
    ∧ (processRepository cfg [] s r now =
         Except.ok (s, createLocationEntity cfg r, false) ↔
       isUnchanged s r = true)
    ∧ (isUnchanged s r = false →
        processRepository cfg [] s r now =
          Except.ok (regStore s r now, createLocationEntity cfg r, true)) := by
  refine ⟨?_, ⟨?_, ?_⟩, ?_⟩
  · unfold isUnchanged
    cases hget : s.get (repoKeyOf r) with
    | none => simp
    | some rec0 => simp [beq_iff_eq]
  · intro hres
    cases h : isUnchanged s r with
    | true => rfl
    | false =>
      rw [processRepository_changed cfg [] now h rfl] at hres
      simp at hres
  · intro h
    exact processRepository_unchanged cfg [] now h
  · intro h
    exact processRepository_changed cfg [] now h rfl

/-- C3: delta minimality — the output of a failure-free pass is exactly one
LocationPointer per New/Changed descriptor, in manifest order (`emittedRepos`
is the classification of the algorithm itself); keys outside the emitted set
keep their stored record untouched, and every emitted key ends the pass with
`manifestVersion` from an emitted descriptor for that key and both
`lastSeenAt` and `lastRegisteredAt` set to the pass timestamp. -/
theorem delta_minimality (cfg : ProviderConfig) (s : VersionStore)
    (repos : List BitbucketManifestRepo) (now : Nat) :
    (processAll cfg [] now s repos).2.1 =
      (emittedRepos now s repos).map (createLocationEntity cfg)
    ∧ (processAll cfg [] now s repos).2.1.length =
        (emittedRepos now s repos).length
    ∧ (∀ k, k ∉ (emittedRepos now s repos).map repoKeyOf →
        (processAll cfg [] now s repos).1.get k = s.get k)
    ∧ (∀ k ∈ (emittedRepos now s repos).map repoKeyOf,
        ∃ r0 ∈ repos, repoKeyOf r0 = k ∧
          (processAll cfg [] now s repos).1.get k =
            some { repoKey := k, manifestVersion := r0.version,
                   lastSeenAt := now, lastRegisteredAt := some now }) := by
  refine ⟨processAll_locations cfg now repos s, ?_,
    fun k hk => processAll_get_frame_emitted cfg now repos s k hk,
    fun k hk => processAll_get_emitted cfg now repos s k hk⟩
  rw [processAll_locations cfg now repos s, List.length_map]

/-- C4 counterexample: two descriptors, `acme/svc-a` whose store write
throws and then `acme/svc-b`, a healthy New descriptor. Whichever of the
two awaits rejects (`upsertSeen` in the first conjunct, `markRegistered`
in the second, where `acme/svc-a`'s upsert has already committed), the
pass aborts at the first descriptor: the error propagates, `applyMutation`
is never called and `acme/svc-b` is neither processed nor emitted — the
claim said the remaining descriptors would still be classified and
emitted. -/
theorem store_failure_aborts_cx :
    discoverE exampleCfg ["acme/svc-a"] []
      { integrationFound := true, responseOk := true, statusText := "OK",
        parsedRepositories := some [repoA, repoB] } [] 0 =
      ([], none, some "store error: acme/svc-a")
    ∧ discoverE exampleCfg [] ["acme/svc-a"]
      { integrationFound := true, responseOk := true, statusText := "OK",
        parsedRepositories := some [repoA, repoB] } [] 0 =
      ([{ repoKey := "acme/svc-a", manifestVersion := "1.0.0",
          lastSeenAt := 0, lastRegisteredAt := none }], none,
        some "store error: acme/svc-a") := by decide

/-- C4 (amended): a store failure for one descriptor aborts the pass: the
exception propagates out of the loop (there is no per-iteration catch),
the failing and all subsequent descriptors are excluded and
`applyMutation` is never called, so no delta at all is delivered. What is
committed at the failing descriptor follows the two separate awaits of the
source (no transaction around them): a rejected `upsertSeen` leaves the
store exactly as it was before the descriptor, while a rejected
`markRegistered` leaves the descriptor's own `upsertSeen` already
committed. -/
theorem store_failure_aborts_pass (cfg : ProviderConfig)
    (fu fr : List String) (env : FetchEnv) (s : VersionStore) (now : Nat)
    (r : BitbucketManifestRepo) (rest repos : List BitbucketManifestRepo) :
    (isUnchanged s r = false → fu.contains (repoKeyOf r) = true →
      processAllE cfg fu fr now s (r :: rest) =
        (s, [], some ("store error: " ++ repoKeyOf r)))
    ∧ (isUnchanged s r = false → fu.contains (repoKeyOf r) = false →
        fr.contains (repoKeyOf r) = true →
        processAllE cfg fu fr now s (r :: rest) =
          (s.upsertSeen (repoKeyOf r) r.version now, [],
            some ("store error: " ++ repoKeyOf r)))
    ∧ (∀ e, fetchManifest env = Except.ok repos →
        (processAllE cfg fu fr now s repos).2.2 = some e →
        discoverE cfg fu fr env s now =
          ((processAllE cfg fu fr now s repos).1, none, some e)) := by
  refine ⟨?_, ?_, ?_⟩
  · intro h hfu
    exact processAllE_cons_upsert_throw cfg fu fr now rest h hfu
  · intro h hfu hfr
    exact processAllE_cons_reg_throw cfg fu fr now rest h hfu hfr
  · intro e hf he
    unfold discoverE
    rw [hf]
    exact applyDelta_err _ e he

/-- C5 counterexample: the store holds `acme/svc-a` at version `1.0.0` with
`lastSeenAt = 0`; a pass at time 5 observes the same version, classifies it
Unchanged, performs no store write, and `lastSeenAt` stays 0 — the claim
said `lastSeenAt` is refreshed on every observation. -/
theorem unchanged_lastSeen_stale_cx :
    ((processAll exampleCfg [] 5
        [{ repoKey := "acme/svc-a", manifestVersion := "1.0.0",
           lastSeenAt := 0, lastRegisteredAt := some 0 }]
        [repoA]).1.get "acme/svc-a").map VersionRecord.lastSeenAt =
      some 0 := by decide

/-- C5 (amended): `lastSeenAt` is refreshed only for New/Changed
descriptors — an Unchanged descriptor causes no store call at all (the
store is returned as-is), while a New/Changed descriptor ends with
`lastSeenAt = now` at its key. -/
theorem lastSeen_refresh_on_change_only (cfg : ProviderConfig)
    (s : VersionStore) (r : BitbucketManifestRepo) (now : Nat) :
    (isUnchanged s r = true →
      processRepository cfg [] s r now =
        Except.ok (s, createLocationEntity cfg r, false))
    ∧ (isUnchanged s r = false →
        ((regStore s r now).get (repoKeyOf r)).map VersionRecord.lastSeenAt =
            some now
        ∧ processRepository cfg [] s r now =
            Except.ok (regStore s r now, createLocationEntity cfg r, true)) := by
  constructor
  · intro h
    exact processRepository_unchanged cfg [] now h
  · intro h
    refine ⟨?_, processRepository_changed cfg [] now h rfl⟩
    rw [regStore_get_self]
    rfl

/-- C6: `upsertSeen` inserts `⟨k, v, now, absent⟩` when no record exists;
with an existing record it overwrites only `manifestVersion` and
`lastSeenAt`, keeping `repoKey` and `lastRegisteredAt`; other keys are
untouched; and under the table's primary-key invariant (`WF`: at most one
record per repoKey) the invariant still holds afterward. -/
theorem upsertSeen_contract (s : VersionStore) (k v : String) (now : Nat) :
    (s.get k = none →
      s.upsertSeen k v now =
        s ++ [{ repoKey := k, manifestVersion := v, lastSeenAt := now,
                lastRegisteredAt := none }])
    ∧ (∀ rec0, s.get k = some rec0 →
        (s.upsertSeen k v now).get k =
          some { repoKey := rec0.repoKey, manifestVersion := v,
                 lastSeenAt := now,
                 lastRegisteredAt := rec0.lastRegisteredAt })
    ∧ (∀ k', k' ≠ k → (s.upsertSeen k v now).get k' = s.get k')
    ∧ (VersionStore.WF s → VersionStore.WF (s.upsertSeen k v now)) := by
  refine ⟨?_, ?_, ?_, ?_⟩
  · intro h
    exact VersionStore.upsertSeen_of_get_none v now h
  · intro rec0 h
    exact VersionStore.upsertSeen_get_self_some v now h
  · intro k' hk
    exact VersionStore.upsertSeen_get_other s v now hk
  · exact VersionStore.WF_upsertSeen k v now

/-- C7 counterexample: `markRegistered` for a key with no record is a
silent, error-free no-op — the underlying UPDATE matches zero rows, the
store is returned unchanged and no error is raised, which the claim said
is disallowed. -/
theorem markRegistered_missing_key_noop_cx :
    VersionStore.markRegistered
        [{ repoKey := "acme/svc-b", manifestVersion := "1.0.0",
           lastSeenAt := 0, lastRegisteredAt := none }] "acme/svc-a" 7 =
      [{ repoKey := "acme/svc-b", manifestVersion := "1.0.0",
         lastSeenAt := 0, lastRegisteredAt := none }] := by decide

/-- C7 (amended): `markRegistered` sets `lastRegisteredAt = now` on the
existing record for the key, leaves every other field and every other key
unchanged, and when no record exists for the key it silently succeeds as a
no-op (no error is raised); the caller keeps the contract by always calling
`upsertSeen` first. -/
theorem markRegistered_contract (s : VersionStore) (k : String) (now : Nat) :
    (∀ rec0, s.get k = some rec0 →
      (s.markRegistered k now).get k =
        some { repoKey := rec0.repoKey,
               manifestVersion := rec0.manifestVersion,
               lastSeenAt := rec0.lastSeenAt,
               lastRegisteredAt := some now })
    ∧ (s.get k = none → s.markRegistered k now = s)
    ∧ (∀ k', k' ≠ k → (s.markRegistered k now).get k' = s.get k')
    ∧ (VersionStore.WF s → VersionStore.WF (s.markRegistered k now)) := by
  refine ⟨?_, ?_, ?_, ?_⟩
  · intro rec0 h
    exact VersionStore.markRegistered_get_self now h
  · intro h
    exact VersionStore.markRegistered_of_get_none now h
  · intro k' hk
    exact VersionStore.markRegistered_get_other s now hk
  · exact VersionStore.WF_markRegistered k now

/-- C8: any fetch-level failure (no integration, non-success response, or a
manifest without `spec.repositories`) is fatal for the whole pass and
atomic: `discover` aborts before any store read or write, returning the
store unchanged with no delta. -/
theorem fetch_failure_atomic (cfg : ProviderConfig) (fk : List String)
    (env : FetchEnv) (s : VersionStore) (now : Nat) (e : String)
    (h : fetchManifest env = Except.error e) :
    discover cfg fk env s now = (s, none, some e) :=
  discover_fetch_error cfg fk env s now e h

/-- C8 witness: a non-success HTTP response aborts the pass and leaves the
pre-populated store exactly as it was, with no delta. -/
theorem fetch_failure_atomic_witness :
    discover exampleCfg []
      { integrationFound := true, responseOk := false,
        statusText := "500 Internal Server Error",
        parsedRepositories := some [repoA] }
      [{ repoKey := "acme/svc-b", manifestVersion := "1.0.0",
         lastSeenAt := 0, lastRegisteredAt := none }] 3 =
      ([{ repoKey := "acme/svc-b", manifestVersion := "1.0.0",
          lastSeenAt := 0, lastRegisteredAt := none }], none,
        some "Failed to fetch manifest: 500 Internal Server Error") :=
  fetch_failure_atomic exampleCfg [] _ _ 3 _ (by rfl)

/-- C9: the provider never issues removals — every delta handed to
`applyMutation` has `removed = []` — and a repoKey absent from the current
manifest is never touched: its stored record after the pass equals its
record before, whatever fetch outcome or store failures occurred. -/
theorem no_removals_ever (cfg : ProviderConfig) (fk : List String)
    (env : FetchEnv) (s : VersionStore) (now : Nat) :
    (∀ m, (discover cfg fk env s now).2.1 = some m → m.removed = [])
    ∧ (∀ repos, fetchManifest env = Except.ok repos →
        ∀ k, k ∉ repos.map repoKeyOf →
          (discover cfg fk env s now).1.get k = s.get k) := by
  constructor
  · intro m hm
    cases hf : fetchManifest env with
    | error e =>
      rw [discover_fetch_error cfg fk env s now e hf] at hm
      simp at hm
    | ok repos =>
      rw [discover_ok cfg fk env s now repos hf] at hm
      exact (applyDelta_some _ m hm).1
  · intro repos hf k hk
    rw [discover_ok cfg fk env s now repos hf, applyDelta_fst]
    exact processAll_get_frame cfg fk now repos s k hk

/-- C10 (implicit): when every descriptor is Unchanged the sink is not
invoked at all — `discover` returns no mutation (rather than an empty
delta) and leaves the store untouched; conversely any mutation that is
delivered carries a non-empty `added` list. -/
theorem all_unchanged_no_sink_call (cfg : ProviderConfig) (fk : List String)
    (env : FetchEnv) (s : VersionStore) (now : Nat)
    (repos : List BitbucketManifestRepo) :
    (fetchManifest env = Except.ok repos →
      (∀ r ∈ repos, isUnchanged s r = true) →
      discover cfg fk env s now = (s, none, none))
    ∧ (∀ m, (discover cfg fk env s now).2.1 = some m → m.added ≠ []) := by
  constructor
  · intro hf hall
    rw [discover_ok cfg fk env s now repos hf,
      pass_all_unchanged cfg fk now repos s hall]
    rfl
  · intro m hm
    cases hf : fetchManifest env with
    | error e =>
      rw [discover_fetch_error cfg fk env s now e hf] at hm
      simp at hm
    | ok repos' =>
      rw [discover_ok cfg fk env s now repos' hf] at hm
      obtain ⟨_, hadded, _, hlen⟩ := applyDelta_some _ m hm
      intro hnil
      rw [hnil] at hadded
      have h0 : (processAll cfg fk now s repos').2.1 = [] :=
        List.map_eq_nil_iff.mp hadded.symm
      rw [h0] at hlen
      simp at hlen

end BBDiscover
